import Mathlib

/-!
Verification of the vetomint BFT consensus core (simperby repository).

The crate `vetomint` under `src/vetomint/src/lib.rs` supplies the public
types of the consensus core (`ConsensusEvent`, `ConsensusResponse`,
`HeightInfo`, `ConsensusState`) and the skeleton `ConsensusState::new`.
The `progress` module referenced by `pub use progress::progress` is not
part of the sources, so the event-processing behaviour is modelled from
the specification (section 4 of the design document) and marked as such.
-/

/-- An index of the validator, for a single height (Rust `type ValidatorIndex = usize`). -/
abbrev ValidatorIndex := Nat

/-- An identifier of the block, for a single height (Rust `type BlockIdentifier = usize`). -/
abbrev BlockIdentifier := Nat

/-- A UNIX timestamp measured in milliseconds (Rust `type Timestamp = i64`). -/
abbrev Timestamp := Int

/-- Rust `struct ConsensusParams { timeout_ms: u64 }`. -/
structure ConsensusParams where
  timeout_ms : Nat
  deriving DecidableEq, Repr

/-- Rust `enum ConsensusEvent`: an event that (potentially) triggers a state transition. -/
inductive ConsensusEvent where
  | BlockProposal (proposal : BlockIdentifier) (proposer : ValidatorIndex)
      (round : Nat) (time : Timestamp)
  | ProposalFavor (proposal : BlockIdentifier) (favor : Bool) (time : Timestamp)
  | BlockProposalBroadcasted (proposal : BlockIdentifier) (round : Nat) (time : Timestamp)
  | Prevote (proposal : BlockIdentifier) (signer : ValidatorIndex)
      (round : Nat) (time : Timestamp)
  | Precommit (proposal : BlockIdentifier) (signer : ValidatorIndex)
      (round : Nat) (time : Timestamp)
  | NilPrevote (signer : ValidatorIndex) (round : Nat) (time : Timestamp)
  | NilPrecommit (signer : ValidatorIndex) (round : Nat) (time : Timestamp)
  | Timer (time : Timestamp)
  deriving DecidableEq, Repr

/-- Rust `enum ConsensusResponse`: a response that the consensus might emit for a given event. -/
inductive ConsensusResponse where
  | CreateAndBroadcastProposal (round : Nat)
  | BroadcastPrevote (proposal : BlockIdentifier) (round : Nat)
  | BroadcastPrecommit (proposal : BlockIdentifier) (round : Nat)
  | BroadcastNilPrevote (round : Nat)
  | BroadcastNilPrecommit (round : Nat)
  | FinalizeBlock (proposal : BlockIdentifier)
  | ViolationReport (violator : ValidatorIndex) (description : String)
  deriving DecidableEq, Repr

/-- Rust `struct HeightInfo`: immutable information used to perform consensus for one height.
`validators` is the list of voting powers sorted by the leader order, indexed by
`ValidatorIndex`. -/
structure HeightInfo where
  validators : List Nat
  this_node_index : ValidatorIndex
  timestamp : Timestamp
  consensus_params : ConsensusParams
  deriving DecidableEq, Repr

/-- Rust `struct ConsensusState` exactly as declared in `src/vetomint/src/lib.rs`
(lines 124-128): the skeleton holds only the `round` field. -/
structure ConsensusState where
  round : Nat
  deriving DecidableEq, Repr

/-- Rust `ConsensusState::new` (lib.rs lines 130-135): ignores its `HeightInfo`
argument and returns `ConsensusState { round: 0 }`. -/
def ConsensusState.new (_height_info : HeightInfo) : ConsensusState :=
  { round := 0 }

/-- Modelled from the spec: section 4.2 Quorum Calculator, missing from src/.
`has_quorum(S, T) = 3*S > 2*T` (strictly more than 2/3), integer arithmetic only. -/
def has_quorum (s t : Nat) : Bool :=
  3 * s > 2 * t

/-- Modelled from the spec: section 4.2 Quorum Calculator, missing from src/.
`has_fault_threshold(S, T) = 3*S > T` (strictly more than 1/3), integer arithmetic only. -/
def has_fault_threshold (s t : Nat) : Bool :=
  3 * s > t

/-- Modelled from the spec: section 4.1 Proposer Selector, missing from src/.
Plain round-robin over the leader-ordered validator list: the proposer of round `r`
is the validator at position `r mod validators.len()` of the leader order, i.e.
validator index `r % validators.length`. Pure, deterministic, total. -/
def proposer (validators : List Nat) (round : Nat) : ValidatorIndex :=
  round % validators.length

/-- Total voting power: the sum of the voting-power table of `HeightInfo`. -/
def totalPower (validators : List Nat) : Nat :=
  validators.sum

/-- Voting power of a single validator index (0 when out of range; the state machine
never records a vote for an out-of-range index). -/
def powerOf (validators : List Nat) (i : ValidatorIndex) : Nat :=
  validators.getD i 0

/-- Modelled from the spec: the step within a round (section 3); missing from src/,
where the Rust `ConsensusState` is a TODO skeleton holding only `round`. -/
inductive Step where
  | Propose
  | Prevote
  | Precommit
  | Decided
  deriving DecidableEq, Repr

/-- Numeric order of steps: Propose < Prevote < Precommit < Decided. -/
def Step.idx : Step → Nat
  | .Propose => 0
  | .Prevote => 1
  | .Precommit => 2
  | .Decided => 3

/-- Modelled from the spec: a vote target is a tagged two-variant value,
"for block X" or nil, never a nullable block id (design note, section 9). -/
inductive VoteTarget where
  | ForBlock (id : BlockIdentifier)
  | NilTarget
  deriving DecidableEq, Repr

/-- Whether a recorded vote is a prevote or a precommit. -/
inductive VoteKind where
  | PrevoteKind
  | PrecommitKind
  deriving DecidableEq, Repr

/-- One entry of the per-round vote ledger (section 3 data model):
round × step × validator → vote target. -/
structure VoteRecord where
  vround : Nat
  kind : VoteKind
  signer : ValidatorIndex
  target : VoteTarget
  deriving DecidableEq, Repr

/-- Modelled from the spec: the full consensus state of section 3; missing from
src/, where the Rust `ConsensusState` is a TODO skeleton holding only `round`. -/
structure MachineState where
  round : Nat
  step : Step
  lockedValue : Option BlockIdentifier
  lockedRound : Option Nat
  validValue : Option BlockIdentifier
  validRound : Option Nat
  votes : List VoteRecord
  proposals : List (Nat × BlockIdentifier)
  favors : List (BlockIdentifier × Bool)
  proposeDeadline : Option Timestamp
  prevoteDeadline : Option Timestamp
  precommitDeadline : Option Timestamp
  decision : Option BlockIdentifier
  deriving DecidableEq, Repr

/-- Modelled from the spec: the initial state of a height (section 3 lifecycle:
`round = 0`, `step = Propose`, all else empty); the src/ skeleton `ConsensusState::new`
builds only `{ round: 0 }`. -/
def machineNew (_height_info : HeightInfo) : MachineState :=
  { round := 0, step := .Propose, lockedValue := none, lockedRound := none,
    validValue := none, validRound := none, votes := [], proposals := [],
    favors := [], proposeDeadline := none, prevoteDeadline := none,
    precommitDeadline := none, decision := none }

/-- The recorded vote target of a validator for a given round and vote kind, if any. -/
def lookupVote : List VoteRecord → Nat → VoteKind → ValidatorIndex → Option VoteTarget
  | [], _, _, _ => none
  | w :: rest, r, k, v =>
    if w.vround = r ∧ w.kind = k ∧ w.signer = v then some w.target
    else lookupVote rest r k v

/-- Summed voting power of the distinct validators that cast any vote in round `r`
(evidence used for round-skip detection, section 4.5). -/
def roundSkipPower (validators : List Nat) (votes : List VoteRecord) (r : Nat) : Nat :=
  (((votes.filter (fun w => w.vround == r)).map (·.signer)).dedup.map
    (powerOf validators)).sum

/-- Summed voting power of the distinct validators that voted exactly target `t`
in round `r` with vote kind `k`. -/
def votePowerFor (validators : List Nat) (votes : List VoteRecord) (r : Nat)
    (k : VoteKind) (t : VoteTarget) : Nat :=
  (((votes.filter (fun w => w.vround == r && w.kind == k && w.target == t)).map
    (·.signer)).dedup.map (powerOf validators)).sum

/-- Summed voting power of the distinct validators that cast any vote of kind `k`
in round `r` (any targets combined; the fault-threshold evidence of section 4.3). -/
def stepVotePower (validators : List Nat) (votes : List VoteRecord) (r : Nat)
    (k : VoteKind) : Nat :=
  (((votes.filter (fun w => w.vround == r && w.kind == k)).map
    (·.signer)).dedup.map (powerOf validators)).sum

/-- The first concrete block value whose votes of kind `k` in round `r` reach quorum. -/
def findQuorumTarget (validators : List Nat) (votes : List VoteRecord) (r : Nat)
    (k : VoteKind) : Option BlockIdentifier :=
  (((votes.filter (fun w => w.vround == r && w.kind == k)).filterMap
      (fun w => match w.target with | .ForBlock x => some x | .NilTarget => none)).dedup).find?
    (fun x => has_quorum (votePowerFor validators votes r k (.ForBlock x))
      (totalPower validators))

/-- The recorded favor signal for a proposal, if any. -/
def favorOf : List (BlockIdentifier × Bool) → BlockIdentifier → Option Bool
  | [], _ => none
  | (p, f) :: rest, x => if p = x then some f else favorOf rest x

/-- The recorded proposal of a round, if any. -/
def proposalOf : List (Nat × BlockIdentifier) → Nat → Option BlockIdentifier
  | [], _ => none
  | (r0, b) :: rest, r => if r0 = r then some b else proposalOf rest r

/-- Modelled from the spec: section 4.4 Timeout Scheduler, missing from src/.
`deadline = now + base_timeout_ms` scaled by a per-round factor, monotone in round. -/
def scheduleDeadline (h : HeightInfo) (r : Nat) (now : Timestamp) : Timestamp :=
  now + (h.consensus_params.timeout_ms * (r + 1) : Nat)

/-- Entering the Propose step of round `r` (section 4.5, Propose-enter row):
reset step, reschedule the propose timeout, clear the other deadlines, and, when
this node is the proposer of `r`, emit `CreateAndBroadcastProposal`. Lock and
valid value are carried forward unchanged. -/
def enterRound (h : HeightInfo) (s : MachineState) (r : Nat) (now : Timestamp) :
    MachineState × List ConsensusResponse :=
  if proposer h.validators r = h.this_node_index then
    ({ s with
        round := r,
        step := Step.Propose,
        proposeDeadline := some (scheduleDeadline h r now),
        prevoteDeadline := none,
        precommitDeadline := none },
     [ConsensusResponse.CreateAndBroadcastProposal r])
  else
    ({ s with
        round := r,
        step := Step.Propose,
        proposeDeadline := some (scheduleDeadline h r now),
        prevoteDeadline := none,
        precommitDeadline := none },
     [])

/-- Entering the Precommit step (section 4.5, Precommit-enter row): schedule the
precommit timeout, clear the prevote deadline. -/
def enterPrecommit (h : HeightInfo) (s : MachineState) (now : Timestamp) : MachineState :=
  { s with
      step := Step.Precommit,
      prevoteDeadline := none,
      precommitDeadline := some (scheduleDeadline h s.round now) }

/-- Quorum checks after tallying a prevote of the current round at step Prevote
(section 4.5 rows for the Prevote step). -/
def checkPrevoteQuorum (h : HeightInfo) (s : MachineState) (now : Timestamp) :
    MachineState × List ConsensusResponse :=
  match findQuorumTarget h.validators s.votes s.round .PrevoteKind with
  | some x =>
    if favorOf s.favors x = some true then
      (enterPrecommit h { s with
          validValue := some x,
          validRound := some s.round,
          lockedValue := some x,
          lockedRound := some s.round } now,
       [ConsensusResponse.BroadcastPrecommit x s.round])
    else
      (enterPrecommit h { s with
          validValue := some x,
          validRound := some s.round } now,
       [ConsensusResponse.BroadcastNilPrecommit s.round])
  | none =>
    if has_quorum (votePowerFor h.validators s.votes s.round .PrevoteKind .NilTarget)
        (totalPower h.validators) then
      (enterPrecommit h s now, [ConsensusResponse.BroadcastNilPrecommit s.round])
    else if has_fault_threshold (stepVotePower h.validators s.votes s.round .PrevoteKind)
        (totalPower h.validators) && s.prevoteDeadline.isNone then
      ({ s with prevoteDeadline := some (scheduleDeadline h s.round now) }, [])
    else (s, [])

/-- Quorum checks after tallying a precommit of the current round at step Precommit
(section 4.5 rows for the Precommit step). -/
def checkPrecommitQuorum (h : HeightInfo) (s : MachineState) (now : Timestamp) :
    MachineState × List ConsensusResponse :=
  match findQuorumTarget h.validators s.votes s.round .PrecommitKind with
  | some x =>
    ({ s with
        step := Step.Decided,
        decision := some x,
        proposeDeadline := none,
        prevoteDeadline := none,
        precommitDeadline := none },
     [ConsensusResponse.FinalizeBlock x])
  | none =>
    if has_quorum (votePowerFor h.validators s.votes s.round .PrecommitKind .NilTarget)
        (totalPower h.validators) then
      enterRound h s (s.round + 1) now
    else (s, [])

/-- Recording a fresh vote into the per-round vote ledger. -/
def recordVote (s : MachineState) (k : VoteKind) (signer : ValidatorIndex) (r : Nat)
    (t : VoteTarget) : MachineState :=
  { s with votes := ⟨r, k, signer, t⟩ :: s.votes }

/-- Tallying one incoming vote (section 4.3): duplicates are silently ignored, an
equivocation is rejected from the tally and reported, a fresh vote is recorded and
the quorum / round-skip checks run. Out-of-range validator indices are ignored. -/
def applyVote (h : HeightInfo) (s : MachineState) (k : VoteKind)
    (signer : ValidatorIndex) (r : Nat) (t : VoteTarget) (now : Timestamp) :
    MachineState × List ConsensusResponse :=
  match lookupVote s.votes r k signer with
  | some t0 =>
    if t0 = t then (s, [])
    else (s, [ConsensusResponse.ViolationReport signer "equivocation"])
  | none =>
    if signer < h.validators.length then
      if r = s.round then
        match k, s.step with
        | .PrevoteKind, .Prevote => checkPrevoteQuorum h (recordVote s k signer r t) now
        | .PrecommitKind, .Precommit => checkPrecommitQuorum h (recordVote s k signer r t) now
        | _, _ => (recordVote s k signer r t, [])
      else if r > s.round ∧
          has_fault_threshold
            (roundSkipPower h.validators (recordVote s k signer r t).votes r)
            (totalPower h.validators) = true then
        enterRound h (recordVote s k signer r t) r now
      else (recordVote s k signer r t, [])
    else (s, [])

/-- Processing a Timer event (section 4.4: each deadline fires at most once and is
cleared after firing; a stale Timer is a no-op). -/
def onTimer (h : HeightInfo) (s : MachineState) (now : Timestamp) :
    MachineState × List ConsensusResponse :=
  match s.step with
  | .Propose =>
    match s.proposeDeadline with
    | some d =>
      if d ≤ now then
        ({ s with step := Step.Prevote, proposeDeadline := none },
         [ConsensusResponse.BroadcastNilPrevote s.round])
      else (s, [])
    | none => (s, [])
  | .Prevote =>
    match s.prevoteDeadline with
    | some d =>
      if d ≤ now then
        (enterPrecommit h { s with prevoteDeadline := none } now,
         [ConsensusResponse.BroadcastNilPrecommit s.round])
      else (s, [])
    | none => (s, [])
  | .Precommit =>
    match s.precommitDeadline with
    | some d =>
      if d ≤ now then enterRound h { s with precommitDeadline := none } (s.round + 1) now
      else (s, [])
    | none => (s, [])
  | .Decided => (s, [])

/-- Processing an incoming block proposal (section 4.5): a proposal from a validator
that is not the proposer of the claimed round is reported and discarded; otherwise
the first proposal of a round is recorded, duplicates are ignored. -/
def onProposal (h : HeightInfo) (s : MachineState) (p : BlockIdentifier)
    (claimed : ValidatorIndex) (r : Nat) (_now : Timestamp) :
    MachineState × List ConsensusResponse :=
  if claimed ≠ proposer h.validators r then
    (s, [ConsensusResponse.ViolationReport claimed "proposal from wrong proposer"])
  else
    match proposalOf s.proposals r with
    | some _ => (s, [])
    | none => ({ s with proposals := (r, p) :: s.proposals }, [])

/-- Recording the externally-supplied favor signal for a proposal (first signal wins). -/
def addFavor (favors : List (BlockIdentifier × Bool)) (p : BlockIdentifier) (f : Bool) :
    List (BlockIdentifier × Bool) :=
  if favorOf favors p = none then (p, f) :: favors else favors

/-- The state transition of the favor signal: record the signal and, when it
answers the recorded proposal of the current round at step Propose, move to Prevote. -/
def onFavor (s : MachineState) (p : BlockIdentifier) (f : Bool) :
    MachineState × List ConsensusResponse :=
  if s.step = Step.Propose ∧ proposalOf s.proposals s.round = some p then
    if f && (s.lockedValue.isNone || s.lockedValue == some p) then
      ({ s with
          favors := addFavor s.favors p f,
          step := Step.Prevote,
          proposeDeadline := none },
       [ConsensusResponse.BroadcastPrevote p s.round])
    else
      ({ s with
          favors := addFavor s.favors p f,
          step := Step.Prevote,
          proposeDeadline := none },
       [ConsensusResponse.BroadcastNilPrevote s.round])
  else ({ s with favors := addFavor s.favors p f }, [])

/-- Processing the completion notice of this node's own proposal broadcast:
record it as the proposal of the round when none is recorded yet. -/
def onBroadcasted (s : MachineState) (p : BlockIdentifier) (r : Nat) :
    MachineState × List ConsensusResponse :=
  match proposalOf s.proposals r with
  | some _ => (s, [])
  | none => ({ s with proposals := (r, p) :: s.proposals }, [])

/-- The severe internal invariant check of section 7: a lock without a valid value,
or `locked_round > valid_round`, is a programming-error condition. -/
def invariantOk (s : MachineState) : Bool :=
  match s.lockedRound, s.validRound with
  | some lr, some vr => decide (lr ≤ vr)
  | some _, none => false
  | none, _ => true

/-- Modelled from the spec: the event dispatcher and round/step state machine
(sections 4.5 and 4.6), missing from src/ (`mod progress` has no source file).
Once Decided, any further event is accepted idempotently with no response.
`Except.error` is returned only on the severe internal invariant breach of
section 7, which signals the caller to halt the height. -/
def progress (h : HeightInfo) (s : MachineState) (e : ConsensusEvent) :
    Except String (MachineState × List ConsensusResponse) :=
  if s.step = Step.Decided then Except.ok (s, [])
  else if invariantOk s = false then Except.error "internal invariant breach"
  else Except.ok (match e with
    | .BlockProposal p claimed r now => onProposal h s p claimed r now
    | .ProposalFavor p f _now => onFavor s p f
    | .BlockProposalBroadcasted p r _now => onBroadcasted s p r
    | .Prevote p signer r now => applyVote h s .PrevoteKind signer r (.ForBlock p) now
    | .Precommit p signer r now => applyVote h s .PrecommitKind signer r (.ForBlock p) now
    | .NilPrevote signer r now => applyVote h s .PrevoteKind signer r .NilTarget now
    | .NilPrecommit signer r now => applyVote h s .PrecommitKind signer r .NilTarget now
    | .Timer now => onTimer h s now)

/-- States reachable from the initial state by a sequence of `progress` calls. -/
inductive Reachable (h : HeightInfo) : MachineState → Prop where
  | init : Reachable h (machineNew h)
  | next {s s' : MachineState} {e : ConsensusEvent} {rs : List ConsensusResponse} :
      Reachable h s → progress h s e = Except.ok (s', rs) → Reachable h s'

/-- The state invariant maintained by the machine: a lock always has a matching
valid value with `locked_round ≤ valid_round`, and `valid_round` never exceeds the
current round. -/
def StateInv (s : MachineState) : Prop :=
  (∀ lr, s.lockedRound = some lr → ∃ vr, s.validRound = some vr ∧ lr ≤ vr) ∧
  (∀ vr, s.validRound = some vr → vr ≤ s.round)

/-- The vote events of the interface, indexed by vote kind and target: `Prevote`,
`Precommit`, `NilPrevote` and `NilPrecommit` all carry a signer, a round and a time. -/
def voteEvent : VoteKind → VoteTarget → ValidatorIndex → Nat → Timestamp → ConsensusEvent
  | .PrevoteKind, .ForBlock p, v, r, time => .Prevote p v r time
  | .PrevoteKind, .NilTarget, v, r, time => .NilPrevote v r time
  | .PrecommitKind, .ForBlock p, v, r, time => .Precommit p v r time
  | .PrecommitKind, .NilTarget, v, r, time => .NilPrecommit v r time

/-- Folding `progress` over a list of events, keeping only the final state. -/
def progressRun (h : HeightInfo) (s : MachineState) :
    List ConsensusEvent → Except String MachineState
  | [] => Except.ok s
  | e :: rest =>
    match progress h s e with
    | Except.ok (s', _) => progressRun h s' rest
    | Except.error m => Except.error m

/-- A sample height: four validators of equal power 1, this node is validator 0,
round 0 starts at time 0, base timeout 1000 ms (Scenario A of the spec). -/
def sampleHeight : HeightInfo := ⟨[1, 1, 1, 1], 0, 0, ⟨1000⟩⟩

/-- The events of Scenario A: proposal of block 7, favor, prevote quorum,
precommit quorum. -/
def scenarioAEvents : List ConsensusEvent :=
  [.BlockProposal 7 0 0 1, .ProposalFavor 7 true 2,
   .Prevote 7 0 0 3, .Prevote 7 1 0 4, .Prevote 7 2 0 5,
   .Precommit 7 0 0 6, .Precommit 7 1 0 7, .Precommit 7 2 0 8]

/-- The state reached after Scenario A: block 7 decided in round 0. -/
def sampleDecidedState : MachineState :=
  { round := 0, step := .Decided, lockedValue := some 7, lockedRound := some 0,
    validValue := some 7, validRound := some 0,
    votes := [⟨0, .PrecommitKind, 2, .ForBlock 7⟩, ⟨0, .PrecommitKind, 1, .ForBlock 7⟩,
      ⟨0, .PrecommitKind, 0, .ForBlock 7⟩, ⟨0, .PrevoteKind, 2, .ForBlock 7⟩,
      ⟨0, .PrevoteKind, 1, .ForBlock 7⟩, ⟨0, .PrevoteKind, 0, .ForBlock 7⟩],
    proposals := [(0, 7)], favors := [(7, true)],
    proposeDeadline := none, prevoteDeadline := none, precommitDeadline := none,
    decision := some 7 }

/-- The state after delivering the Scenario A proposal to the initial state. -/
def sampleAfterProposal : MachineState :=
  { machineNew sampleHeight with proposals := [(0, 7)] }

/-- The (reachable) state in which validator 2 has prevoted block 7 in round 0. -/
def sampleOneVote : MachineState :=
  { machineNew sampleHeight with
      votes := [⟨0, VoteKind.PrevoteKind, 2, VoteTarget.ForBlock 7⟩] }

/-! ## Helper lemmas about the transition functions -/

/-- The state component of `enterRound` in explicit form (both branches agree on it). -/
theorem enterRound_fst (h : HeightInfo) (s : MachineState) (r : Nat) (now : Timestamp) :
    (enterRound h s r now).1 = { s with
      round := r,
      step := Step.Propose,
      proposeDeadline := some (scheduleDeadline h r now),
      prevoteDeadline := none,
      precommitDeadline := none } := by
  unfold enterRound
  split <;> rfl

/-- Transport of the state invariant along a transition that keeps the lock and
valid rounds and does not decrease the round. -/
theorem stateInv_of_eq (s s' : MachineState)
    (hl : s'.lockedRound = s.lockedRound) (hv : s'.validRound = s.validRound)
    (hr : s.round ≤ s'.round) (hi : StateInv s) : StateInv s' := by
  obtain ⟨h1, h2⟩ := hi
  refine ⟨?_, ?_⟩
  · intro lr hlr
    rw [hl] at hlr
    obtain ⟨vr, hvr, hle⟩ := h1 lr hlr
    exact ⟨vr, by rw [hv]; exact hvr, hle⟩
  · intro vr hvr
    rw [hv] at hvr
    exact le_trans (h2 vr hvr) hr

theorem enterRound_inv (h : HeightInfo) (s : MachineState) (r : Nat) (now : Timestamp)
    (hr : s.round ≤ r) (hi : StateInv s) : StateInv (enterRound h s r now).1 := by
  rw [enterRound_fst]
  exact stateInv_of_eq s _ rfl rfl hr hi

theorem checkPrevoteQuorum_round (h : HeightInfo) (s : MachineState) (now : Timestamp) :
    (checkPrevoteQuorum h s now).1.round = s.round := by
  unfold checkPrevoteQuorum
  split
  · split <;> rfl
  · split
    · rfl
    · split <;> rfl

theorem checkPrevoteQuorum_step (h : HeightInfo) (s : MachineState) (now : Timestamp) :
    (checkPrevoteQuorum h s now).1.step = Step.Precommit ∨
    (checkPrevoteQuorum h s now).1.step = s.step := by
  unfold checkPrevoteQuorum
  split
  · split
    · exact Or.inl rfl
    · exact Or.inl rfl
  · split
    · exact Or.inl rfl
    · split
      · exact Or.inr rfl
      · exact Or.inr rfl

theorem checkPrevoteQuorum_inv (h : HeightInfo) (s : MachineState) (now : Timestamp)
    (hi : StateInv s) : StateInv (checkPrevoteQuorum h s now).1 := by
  obtain ⟨h1, h2⟩ := hi
  unfold checkPrevoteQuorum
  split
  · split
    · refine ⟨?_, ?_⟩
      · intro lr hlr
        simp only [enterPrecommit] at hlr ⊢
        exact ⟨s.round, rfl, by simp_all⟩
      · intro vr hvr
        simp only [enterPrecommit] at hvr ⊢
        simp_all
    · refine ⟨?_, ?_⟩
      · intro lr hlr
        simp only [enterPrecommit] at hlr ⊢
        obtain ⟨vr, hvr, hle⟩ := h1 lr hlr
        exact ⟨s.round, rfl, le_trans hle (h2 vr hvr)⟩
      · intro vr hvr
        simp only [enterPrecommit] at hvr ⊢
        simp_all
  · split
    · exact stateInv_of_eq s _ rfl rfl (le_refl _) ⟨h1, h2⟩
    · split
      · exact stateInv_of_eq s _ rfl rfl (le_refl _) ⟨h1, h2⟩
      · exact ⟨h1, h2⟩

theorem checkPrecommitQuorum_inv (h : HeightInfo) (s : MachineState) (now : Timestamp)
    (hi : StateInv s) : StateInv (checkPrecommitQuorum h s now).1 := by
  unfold checkPrecommitQuorum
  split
  · exact stateInv_of_eq s _ rfl rfl (le_refl _) hi
  · split
    · exact enterRound_inv h s (s.round + 1) now (Nat.le_succ _) hi
    · exact hi

theorem onProposal_state (h : HeightInfo) (s : MachineState) (p claimed r : Nat)
    (now : Timestamp) :
    (onProposal h s p claimed r now).1.round = s.round ∧
    (onProposal h s p claimed r now).1.step = s.step ∧
    (onProposal h s p claimed r now).1.lockedRound = s.lockedRound ∧
    (onProposal h s p claimed r now).1.validRound = s.validRound := by
  unfold onProposal
  split
  · exact ⟨rfl, rfl, rfl, rfl⟩
  · split <;> exact ⟨rfl, rfl, rfl, rfl⟩

theorem onBroadcasted_state (s : MachineState) (p r : Nat) :
    (onBroadcasted s p r).1.round = s.round ∧
    (onBroadcasted s p r).1.step = s.step ∧
    (onBroadcasted s p r).1.lockedRound = s.lockedRound ∧
    (onBroadcasted s p r).1.validRound = s.validRound := by
  unfold onBroadcasted
  split <;> exact ⟨rfl, rfl, rfl, rfl⟩

theorem onFavor_state (s : MachineState) (p : Nat) (f : Bool) :
    (onFavor s p f).1.round = s.round ∧
    (Step.idx s.step ≤ Step.idx (onFavor s p f).1.step) ∧
    (onFavor s p f).1.lockedRound = s.lockedRound ∧
    (onFavor s p f).1.validRound = s.validRound := by
  unfold onFavor
  split
  · next hc =>
    obtain ⟨hstep, -⟩ := hc
    split <;> exact ⟨rfl, by rw [hstep]; exact Nat.zero_le _, rfl, rfl⟩
  · exact ⟨rfl, le_refl _, rfl, rfl⟩

theorem applyVote_mono (h : HeightInfo) (s : MachineState) (k : VoteKind)
    (signer r : Nat) (t : VoteTarget) (now : Timestamp) :
    s.round ≤ (applyVote h s k signer r t now).1.round ∧
    (Step.idx s.step ≤ Step.idx (applyVote h s k signer r t now).1.step ∨
      (s.round < (applyVote h s k signer r t now).1.round ∧
       (applyVote h s k signer r t now).1.step = Step.Propose)) := by
  unfold applyVote
  split
  · split
    · exact ⟨le_refl _, Or.inl (le_refl _)⟩
    · exact ⟨le_refl _, Or.inl (le_refl _)⟩
  · split
    · split
      · next hr =>
        generalize hst : s.step = st
        cases k <;> cases st
        · exact ⟨le_refl _, Or.inl (by show Step.idx _ ≤ Step.idx s.step; rw [hst])⟩
        · refine ⟨?_, ?_⟩
          · show s.round ≤ (checkPrevoteQuorum h (recordVote s .PrevoteKind signer r t) now).1.round
            rw [checkPrevoteQuorum_round]
            exact le_refl _
          · left
            show Step.idx _ ≤ Step.idx (checkPrevoteQuorum h (recordVote s .PrevoteKind signer r t) now).1.step
            rcases checkPrevoteQuorum_step h (recordVote s .PrevoteKind signer r t) now with hq | hq
            · rw [hq]
              decide
            · rw [hq]
              show Step.idx Step.Prevote ≤ Step.idx s.step
              rw [hst]
        · exact ⟨le_refl _, Or.inl (by show Step.idx _ ≤ Step.idx s.step; rw [hst])⟩
        · exact ⟨le_refl _, Or.inl (by show Step.idx _ ≤ Step.idx s.step; rw [hst])⟩
        · exact ⟨le_refl _, Or.inl (by show Step.idx _ ≤ Step.idx s.step; rw [hst])⟩
        · exact ⟨le_refl _, Or.inl (by show Step.idx _ ≤ Step.idx s.step; rw [hst])⟩
        · show s.round ≤ (checkPrecommitQuorum h (recordVote s .PrecommitKind signer r t) now).1.round ∧
            (Step.idx Step.Precommit ≤ Step.idx (checkPrecommitQuorum h (recordVote s .PrecommitKind signer r t) now).1.step ∨
              (s.round < (checkPrecommitQuorum h (recordVote s .PrecommitKind signer r t) now).1.round ∧
               (checkPrecommitQuorum h (recordVote s .PrecommitKind signer r t) now).1.step = Step.Propose))
          unfold checkPrecommitQuorum
          split
          · exact ⟨le_refl _, Or.inl (by show Step.idx Step.Precommit ≤ Step.idx Step.Decided; decide)⟩
          · split
            · rw [enterRound_fst]
              exact ⟨Nat.le_succ _, Or.inr ⟨Nat.lt_succ_self _, rfl⟩⟩
            · exact ⟨le_refl _, Or.inl (by show Step.idx Step.Precommit ≤ Step.idx s.step; rw [hst])⟩
        · exact ⟨le_refl _, Or.inl (by show Step.idx _ ≤ Step.idx s.step; rw [hst])⟩
      · split
        · next hc =>
          rw [enterRound_fst]
          exact ⟨Nat.le_of_lt hc.1, Or.inr ⟨hc.1, rfl⟩⟩
        · exact ⟨le_refl _, Or.inl (le_refl _)⟩
    · exact ⟨le_refl _, Or.inl (le_refl _)⟩

theorem onTimer_mono (h : HeightInfo) (s : MachineState) (now : Timestamp) :
    s.round ≤ (onTimer h s now).1.round ∧
    (Step.idx s.step ≤ Step.idx (onTimer h s now).1.step ∨
      (s.round < (onTimer h s now).1.round ∧ (onTimer h s now).1.step = Step.Propose)) := by
  unfold onTimer
  split
  · next hstep =>
    split
    · split
      · exact ⟨le_refl _, Or.inl
          (by show Step.idx s.step ≤ Step.idx Step.Prevote; rw [hstep]; decide)⟩
      · exact ⟨le_refl _, Or.inl (le_refl _)⟩
    · exact ⟨le_refl _, Or.inl (le_refl _)⟩
  · next hstep =>
    split
    · split
      · exact ⟨le_refl _, Or.inl
          (by show Step.idx s.step ≤ Step.idx Step.Precommit; rw [hstep]; decide)⟩
      · exact ⟨le_refl _, Or.inl (le_refl _)⟩
    · exact ⟨le_refl _, Or.inl (le_refl _)⟩
  · next hstep =>
    split
    · split
      · rw [enterRound_fst]
        exact ⟨Nat.le_succ _, Or.inr ⟨Nat.lt_succ_self _, rfl⟩⟩
      · exact ⟨le_refl _, Or.inl (le_refl _)⟩
    · exact ⟨le_refl _, Or.inl (le_refl _)⟩
  · exact ⟨le_refl _, Or.inl (le_refl _)⟩

theorem recordVote_inv (s : MachineState) (k : VoteKind) (signer r : Nat)
    (t : VoteTarget) (hi : StateInv s) : StateInv (recordVote s k signer r t) :=
  stateInv_of_eq s _ rfl rfl (le_refl _) hi

theorem applyVote_inv (h : HeightInfo) (s : MachineState) (k : VoteKind)
    (signer r : Nat) (t : VoteTarget) (now : Timestamp) (hi : StateInv s) :
    StateInv (applyVote h s k signer r t now).1 := by
  unfold applyVote
  split
  · split
    · exact hi
    · exact hi
  · split
    · split
      · generalize hst : s.step = st
        cases k <;> cases st
        · exact recordVote_inv s _ signer r t hi
        · exact checkPrevoteQuorum_inv h _ now (recordVote_inv s _ signer r t hi)
        · exact recordVote_inv s _ signer r t hi
        · exact recordVote_inv s _ signer r t hi
        · exact recordVote_inv s _ signer r t hi
        · exact recordVote_inv s _ signer r t hi
        · exact checkPrecommitQuorum_inv h _ now (recordVote_inv s _ signer r t hi)
        · exact recordVote_inv s _ signer r t hi
      · split
        · next hc =>
          exact enterRound_inv h _ r now (Nat.le_of_lt hc.1)
            (recordVote_inv s _ signer r t hi)
        · exact recordVote_inv s _ signer r t hi
    · exact hi

theorem onTimer_inv (h : HeightInfo) (s : MachineState) (now : Timestamp)
    (hi : StateInv s) : StateInv (onTimer h s now).1 := by
  unfold onTimer
  split
  · split
    · split
      · exact stateInv_of_eq s _ rfl rfl (le_refl _) hi
      · exact hi
    · exact hi
  · split
    · split
      · exact stateInv_of_eq s _ rfl rfl (le_refl _) hi
      · exact hi
    · exact hi
  · split
    · split
      · exact enterRound_inv h _ (s.round + 1) now (Nat.le_succ _)
          (stateInv_of_eq s _ rfl rfl (le_refl _) hi)
      · exact hi
    · exact hi
  · exact hi

theorem onProposal_inv (h : HeightInfo) (s : MachineState) (p claimed r : Nat)
    (now : Timestamp) (hi : StateInv s) : StateInv (onProposal h s p claimed r now).1 := by
  obtain ⟨h1, h2, h3, h4⟩ := onProposal_state h s p claimed r now
  exact stateInv_of_eq s _ h3 h4 (le_of_eq h1.symm) hi

theorem onBroadcasted_inv (s : MachineState) (p r : Nat) (hi : StateInv s) :
    StateInv (onBroadcasted s p r).1 := by
  obtain ⟨h1, h2, h3, h4⟩ := onBroadcasted_state s p r
  exact stateInv_of_eq s _ h3 h4 (le_of_eq h1.symm) hi

theorem onFavor_inv (s : MachineState) (p : Nat) (f : Bool) (hi : StateInv s) :
    StateInv (onFavor s p f).1 := by
  obtain ⟨h1, h2, h3, h4⟩ := onFavor_state s p f
  exact stateInv_of_eq s _ h3 h4 (le_of_eq h1.symm) hi

theorem progress_inv (h : HeightInfo) (s : MachineState) (e : ConsensusEvent)
    (s' : MachineState) (rs : List ConsensusResponse)
    (hp : progress h s e = Except.ok (s', rs)) (hi : StateInv s) : StateInv s' := by
  unfold progress at hp
  split at hp
  · simp only [Except.ok.injEq, Prod.mk.injEq] at hp
    obtain ⟨hs', -⟩ := hp
    exact hs' ▸ hi
  · split at hp
    · cases hp
    · cases e <;> simp only [Except.ok.injEq] at hp
      · exact Eq.mp (congrArg StateInv (congrArg Prod.fst hp)) <| onProposal_inv h s _ _ _ _ hi
      · exact Eq.mp (congrArg StateInv (congrArg Prod.fst hp)) <| onFavor_inv s _ _ hi
      · exact Eq.mp (congrArg StateInv (congrArg Prod.fst hp)) <| onBroadcasted_inv s _ _ hi
      · exact Eq.mp (congrArg StateInv (congrArg Prod.fst hp)) <| applyVote_inv h s _ _ _ _ _ hi
      · exact Eq.mp (congrArg StateInv (congrArg Prod.fst hp)) <| applyVote_inv h s _ _ _ _ _ hi
      · exact Eq.mp (congrArg StateInv (congrArg Prod.fst hp)) <| applyVote_inv h s _ _ _ _ _ hi
      · exact Eq.mp (congrArg StateInv (congrArg Prod.fst hp)) <| applyVote_inv h s _ _ _ _ _ hi
      · exact Eq.mp (congrArg StateInv (congrArg Prod.fst hp)) <| onTimer_inv h s _ hi

theorem machineNew_stateInv (h : HeightInfo) : StateInv (machineNew h) := by
  constructor
  · intro lr hlr
    simp [machineNew] at hlr
  · intro vr hvr
    simp [machineNew] at hvr

theorem reachable_stateInv {h : HeightInfo} {s : MachineState}
    (hr : Reachable h s) : StateInv s := by
  induction hr with
  | init => exact machineNew_stateInv h
  | next hstep hp ih => exact progress_inv _ _ _ _ _ hp ih

theorem invariantOk_of_stateInv (s : MachineState) (hi : StateInv s) :
    invariantOk s = true := by
  obtain ⟨h1, h2⟩ := hi
  unfold invariantOk
  split
  · next lr vr hlr hvr =>
    obtain ⟨vr', hvr', hle⟩ := h1 lr hlr
    rw [hvr] at hvr'
    injection hvr' with hh
    subst hh
    exact decide_eq_true hle
  · next lr hlr hvr =>
    obtain ⟨vr', hvr', -⟩ := h1 lr hlr
    rw [hvr] at hvr'
    cases hvr'
  · rfl

theorem pair_eq_fst {α β : Type} {p : α × β} {a : α} {b : β} (hp : p = (a, b)) :
    p.1 = a := by
  rw [hp]

theorem reachable_of_progressRun {h : HeightInfo} {s sfin : MachineState}
    {es : List ConsensusEvent} (hr : Reachable h s)
    (hrun : progressRun h s es = Except.ok sfin) : Reachable h sfin := by
  induction es generalizing s with
  | nil =>
    injection hrun with hh
    subst hh
    exact hr
  | cons e rest ih =>
    unfold progressRun at hrun
    split at hrun
    · next s' rs heq => exact ih (Reachable.next hr heq) hrun
    · cases hrun

/-- Claim C2: processing one event never decreases the round, and never decreases
the step (ordered Propose < Prevote < Precommit < Decided) except by resetting the
step to Propose when the round strictly increases. -/
theorem progress_round_step_monotone (h : HeightInfo) (s s' : MachineState)
    (e : ConsensusEvent) (rs : List ConsensusResponse)
    (hp : progress h s e = Except.ok (s', rs)) :
    s.round ≤ s'.round ∧
    (Step.idx s.step ≤ Step.idx s'.step ∨
      (s.round < s'.round ∧ s'.step = Step.Propose)) := by
  unfold progress at hp
  split at hp
  · simp only [Except.ok.injEq, Prod.mk.injEq] at hp
    obtain ⟨hs', -⟩ := hp
    subst hs'
    exact ⟨le_refl _, Or.inl (le_refl _)⟩
  · split at hp
    · cases hp
    · cases e <;> simp only [Except.ok.injEq] at hp
      · rw [← pair_eq_fst hp]
        obtain ⟨h1, h2, -, -⟩ := onProposal_state h s _ _ _ _
        rw [h1, h2]
        exact ⟨le_refl _, Or.inl (le_refl _)⟩
      · rw [← pair_eq_fst hp]
        obtain ⟨h1, h2, -, -⟩ := onFavor_state s _ _
        rw [h1]
        exact ⟨le_refl _, Or.inl h2⟩
      · rw [← pair_eq_fst hp]
        obtain ⟨h1, h2, -, -⟩ := onBroadcasted_state s _ _
        rw [h1, h2]
        exact ⟨le_refl _, Or.inl (le_refl _)⟩
      · rw [← pair_eq_fst hp]
        exact applyVote_mono h s _ _ _ _ _
      · rw [← pair_eq_fst hp]
        exact applyVote_mono h s _ _ _ _ _
      · rw [← pair_eq_fst hp]
        exact applyVote_mono h s _ _ _ _ _
      · rw [← pair_eq_fst hp]
        exact applyVote_mono h s _ _ _ _ _
      · rw [← pair_eq_fst hp]
        exact onTimer_mono h s _

/-- Witness for C2 at a concrete input: the Scenario A proposal at the initial state. -/
theorem progress_round_step_monotone_witness :
    progress sampleHeight (machineNew sampleHeight)
        (ConsensusEvent.BlockProposal 7 0 0 1) =
      Except.ok (sampleAfterProposal, []) ∧
    ((machineNew sampleHeight).round ≤ sampleAfterProposal.round ∧
      (Step.idx (machineNew sampleHeight).step ≤ Step.idx sampleAfterProposal.step ∨
        ((machineNew sampleHeight).round < sampleAfterProposal.round ∧
         sampleAfterProposal.step = Step.Propose))) :=
  ⟨rfl, progress_round_step_monotone sampleHeight (machineNew sampleHeight)
    sampleAfterProposal (ConsensusEvent.BlockProposal 7 0 0 1) [] rfl⟩

/-- Claim C3: once the step is Decided, progress on any further event returns the
state unchanged and an empty list of responses. -/
theorem progress_decided_idempotent (h : HeightInfo) (s : MachineState)
    (e : ConsensusEvent) (hd : s.step = Step.Decided) :
    progress h s e = Except.ok (s, []) := by
  unfold progress
  rw [if_pos hd]

/-- Witness for C3 at a concrete input: the decided state of Scenario A. -/
theorem progress_decided_idempotent_witness :
    sampleDecidedState.step = Step.Decided ∧
    progress sampleHeight sampleDecidedState (ConsensusEvent.Timer 99) =
      Except.ok (sampleDecidedState, []) :=
  ⟨rfl, progress_decided_idempotent sampleHeight sampleDecidedState
    (ConsensusEvent.Timer 99) rfl⟩

/-- Claim C7: on every reachable state, every event (malformed, duplicate, stale or
out-of-round included) is processed without a fatal outcome: `progress` returns an
ordinary result and never the internal-invariant-breach error. -/
theorem progress_total_on_reachable (h : HeightInfo) (s : MachineState)
    (e : ConsensusEvent) (hr : Reachable h s) :
    ∃ out, progress h s e = Except.ok out := by
  have hok := invariantOk_of_stateInv s (reachable_stateInv hr)
  have hnotfalse : ¬ invariantOk s = false := by
    rw [hok]
    simp
  unfold progress
  by_cases hd : s.step = Step.Decided
  · rw [if_pos hd]
    exact ⟨_, rfl⟩
  · rw [if_neg hd, if_neg hnotfalse]
    exact ⟨_, rfl⟩

/-- Witness for C7 at a concrete input: a stale out-of-round nil prevote at the
initial (reachable) state. -/
theorem progress_total_on_reachable_witness :
    ∃ out, progress sampleHeight (machineNew sampleHeight)
      (ConsensusEvent.NilPrevote 1 5 3) = Except.ok out :=
  progress_total_on_reachable sampleHeight (machineNew sampleHeight)
    (ConsensusEvent.NilPrevote 1 5 3) Reachable.init

/-- Claim C5 (amended): on a reachable, not-yet-Decided state, a second vote from
the same validator for the same round and step with a different target is rejected
from the tally (the state, hence the recorded first vote, is unchanged, so the
second vote never counts toward any quorum) and a ViolationReport naming the
validator is emitted. -/
theorem progress_equivocation_reported (h : HeightInfo) (s : MachineState)
    (k : VoteKind) (v r : Nat) (t0 t : VoteTarget) (time : Timestamp)
    (hreach : Reachable h s) (hnd : s.step ≠ Step.Decided)
    (hrec : lookupVote s.votes r k v = some t0) (hne : t0 ≠ t) :
    progress h s (voteEvent k t v r time) =
      Except.ok (s, [ConsensusResponse.ViolationReport v "equivocation"]) := by
  have hok := invariantOk_of_stateInv s (reachable_stateInv hreach)
  have hnotfalse : ¬ invariantOk s = false := by
    rw [hok]
    simp
  unfold progress
  rw [if_neg hnd, if_neg hnotfalse]
  cases k <;> cases t <;>
    (simp only [voteEvent]
     unfold applyVote
     simp only [hrec]
     rw [if_neg hne])

/-- Counterexample to claim C5 as stated: after a decision (step Decided, a
reachable situation — here the Scenario A run), a second conflicting prevote from
validator 2 is accepted idempotently with no ViolationReport at all, because the
Decided idempotence rule overrides the equivocation rule. -/
theorem progress_equivocation_decided_cex :
    Reachable sampleHeight sampleDecidedState ∧
    lookupVote sampleDecidedState.votes 0 VoteKind.PrevoteKind 2 =
      some (VoteTarget.ForBlock 7) ∧
    VoteTarget.ForBlock 7 ≠ VoteTarget.ForBlock 9 ∧
    progress sampleHeight sampleDecidedState (ConsensusEvent.Prevote 9 2 0 9) =
      Except.ok (sampleDecidedState, []) :=
  ⟨reachable_of_progressRun Reachable.init
    (by rfl :
      progressRun sampleHeight (machineNew sampleHeight) scenarioAEvents =
        Except.ok sampleDecidedState),
   rfl, by decide, rfl⟩

/-- Witness for the amended C5 at a concrete input: validator 2 prevoted block 7
in round 0, then prevotes block 9 in the same round before any decision. -/
theorem progress_equivocation_reported_witness :
    progress sampleHeight sampleOneVote (ConsensusEvent.Prevote 9 2 0 9) =
      Except.ok (sampleOneVote, [ConsensusResponse.ViolationReport 2 "equivocation"]) :=
  progress_equivocation_reported sampleHeight sampleOneVote VoteKind.PrevoteKind 2 0
    (VoteTarget.ForBlock 7) (VoteTarget.ForBlock 9) 9
    (Reachable.next Reachable.init
      (show progress sampleHeight (machineNew sampleHeight)
          (ConsensusEvent.Prevote 7 2 0 3) =
        Except.ok (sampleOneVote, []) from rfl))
    (by decide) rfl (by decide)

/-- Claim C4: for all non-negative voting-power sums S and totals T, the quorum
predicate holds iff 3*S > 2*T and the fault-threshold predicate holds iff 3*S > T,
in exact (Nat) integer arithmetic. -/
theorem quorum_calculator_contract (s t : Nat) :
    (has_quorum s t = true ↔ 3 * s > 2 * t) ∧
    (has_fault_threshold s t = true ↔ 3 * s > t) := by
  constructor <;> simp [has_quorum, has_fault_threshold]

/-- Claim C6: the proposer selector is a pure deterministic total function; for a
nonempty leader-ordered validator list it selects the validator at position
`round mod validators.len()`, always a valid index (no failure cases). -/
theorem proposer_round_robin (validators : List Nat) (r : Nat)
    (hne : 0 < validators.length) :
    proposer validators r = r % validators.length ∧
    proposer validators r < validators.length := by
  exact ⟨rfl, Nat.mod_lt _ hne⟩

/-- Witness for C6 at a concrete input: four validators, round 6. -/
theorem proposer_round_robin_witness :
    0 < ([1, 1, 1, 1] : List Nat).length ∧
    (proposer [1, 1, 1, 1] 6 = 6 % ([1, 1, 1, 1] : List Nat).length ∧
     proposer [1, 1, 1, 1] 6 < ([1, 1, 1, 1] : List Nat).length) :=
  ⟨by decide, proposer_round_robin [1, 1, 1, 1] 6 (by decide)⟩

/-- Claim C8: for every HeightInfo, `ConsensusState::new` returns a state whose
round equals 0 (src/vetomint/src/lib.rs lines 130-135). -/
theorem consensusState_new_round_zero (h : HeightInfo) :
    (ConsensusState.new h).round = 0 :=
  rfl

/-- Claim C9: the initial state of a height has step Propose and lock, valid
value, vote ledger, proposal record, deadlines and decision all absent/empty
(spec-modelled state; the src/ skeleton state has only the `round` field). -/
theorem machineNew_initial_fields (h : HeightInfo) :
    (machineNew h).step = Step.Propose ∧
    (machineNew h).lockedValue = none ∧ (machineNew h).lockedRound = none ∧
    (machineNew h).validValue = none ∧ (machineNew h).validRound = none ∧
    (machineNew h).votes = [] ∧ (machineNew h).proposals = [] ∧
    (machineNew h).favors = [] ∧
    (machineNew h).proposeDeadline = none ∧ (machineNew h).prevoteDeadline = none ∧
    (machineNew h).precommitDeadline = none ∧ (machineNew h).decision = none :=
  ⟨rfl, rfl, rfl, rfl, rfl, rfl, rfl, rfl, rfl, rfl, rfl, rfl⟩

/-- Claim C10: `ConsensusState::new` ignores its HeightInfo argument entirely, so
the initial state carries no information from HeightInfo. -/
theorem consensusState_new_ignores_heightInfo (h1 h2 : HeightInfo) :
    ConsensusState.new h1 = ConsensusState.new h2 :=
  rfl
